import Mathlib

/-!
# Verification of the `boykisser` asset-registry crate

Shallow embedding of `src/lib.rs` and `src/art/mod.rs`: the asset
declaration macros are modelled as functions from the declared data to
the generated bindings, and the runtime utility functions
(`to_base64`, `mime_type_from_extension`, `create_data_url`,
`get_line_count`, `get_char_count`) are translated directly.
Bytes (`u8`) are modelled as `Nat` values below 256; Rust `&str` as
Lean `String`.
-/

namespace Boykisser

/-- Metadata for binary assets (`struct AssetInfo` in `src/lib.rs`). -/
structure AssetInfo where
  name : String
  size : Nat
  format : String
  description : String
deriving DecidableEq

/-- Metadata for text assets (`struct TextAssetInfo` in `src/lib.rs`). -/
structure TextAssetInfo where
  name : String
  description : String
deriving DecidableEq

/-- Model of the `include_binary_asset!` macro: binding a name to the byte
content read from the source file produces the content binding together with
the generated `_INFO` record, whose `size` field is `$name.len()`. -/
def include_binary_asset (name : String) (content : List Nat)
    (format descr : String) : List Nat × AssetInfo :=
  (content,
   { name := name, size := content.length, format := format,
     description := descr })

/-- Model of the `include_text_asset!` macro. -/
def include_text_asset (name : String) (content : String)
    (descr : String) : String × TextAssetInfo :=
  (content, { name := name, description := descr })

/-- A binary spec `(name, path, format, description)` of
`create_asset_registry!`, with the path replaced by the bytes it resolves to
at build time. -/
structure BinarySpec where
  name : String
  content : List Nat
  format : String
  description : String
deriving DecidableEq

/-- A text spec `(name, path, description)` of `create_asset_registry!`,
with the path replaced by the text it resolves to at build time. -/
structure TextSpec where
  name : String
  content : String
  description : String
deriving DecidableEq

/-- The module generated by `create_asset_registry!`: one binding pair per
spec, in declaration order. -/
structure Registry where
  binaries : List (List Nat × AssetInfo)
  texts : List (String × TextAssetInfo)
deriving DecidableEq

/-- Model of the `create_asset_registry!` macro: expand the two declaration
macros for every entry of each list, in order. -/
def create_asset_registry (bins : List BinarySpec) (texts : List TextSpec) :
    Registry :=
  { binaries :=
      bins.map fun s => include_binary_asset s.name s.content s.format s.description
    texts :=
      texts.map fun s => include_text_asset s.name s.content s.description }

/-- `list_binary_assets()` of a generated registry module: the vector of
references to the `_INFO` records, one per binary spec, in order. -/
def Registry.list_binary_assets (r : Registry) : List AssetInfo :=
  r.binaries.map Prod.snd

/-- `list_text_assets()` of a generated registry module. -/
def Registry.list_text_assets (r : Registry) : List TextAssetInfo :=
  r.texts.map Prod.snd

namespace images

/-- `images::ICON_PNG` from `src/lib.rs`: the PNG signature bytes. -/
def ICON_PNG : List Nat := [0x89, 0x50, 0x4E, 0x47, 0x0D, 0x0A, 0x1A, 0x0A]

/-- `images::ICON_PNG_INFO`, written by hand in the source with
`size: ICON_PNG.len()`. -/
def ICON_PNG_INFO : AssetInfo :=
  { name := "ICON_PNG", size := ICON_PNG.length, format := "PNG",
    description := "Application icon in PNG format" }

/-- `images::LOGO_SVG`: the bytes of the ASCII byte-string literal. -/
def LOGO_SVG : List Nat := "<svg><!-- SVG content --></svg>".data.map Char.toNat

/-- `images::LOGO_SVG_INFO`, with `size: LOGO_SVG.len()`. -/
def LOGO_SVG_INFO : AssetInfo :=
  { name := "LOGO_SVG", size := LOGO_SVG.length, format := "SVG",
    description := "Company logo in SVG format" }

end images

namespace utils

/-- The Base64 alphabet table `CHARS` of `utils::base64_encode`. -/
def CHARS : List Char :=
  "ABCDEFGHIJKLMNOPQRSTUVWXYZabcdefghijklmnopqrstuvwxyz0123456789+/".data

/-- One iteration of the `for chunk in input.chunks(3)` loop body of
`utils::base64_encode`: `buf` is the chunk zero-padded to 3 bytes, `b` the
24-bit word, and the four pushed characters follow, with `=` replacing the
third (resp. fourth) character when the chunk has at most 1 (resp. at
most 2) bytes. -/
def encodeChunk (chunk : List Nat) : List Char :=
  let buf0 := chunk.getD 0 0
  let buf1 := chunk.getD 1 0
  let buf2 := chunk.getD 2 0
  let b := (buf0 <<< 16) ||| (buf1 <<< 8) ||| buf2
  [CHARS.getD ((b >>> 18) &&& 63) 'A',
   CHARS.getD ((b >>> 12) &&& 63) 'A',
   if chunk.length > 1 then CHARS.getD ((b >>> 6) &&& 63) 'A' else '=',
   if chunk.length > 2 then CHARS.getD (b &&& 63) 'A' else '=']

/-- The full loop of `utils::base64_encode`: `input.chunks(3)` yields the
successive 3-byte chunks, the last one possibly shorter. -/
def encodeChunks : List Nat → List Char
  | [] => []
  | b0 :: b1 :: b2 :: rest => encodeChunk [b0, b1, b2] ++ encodeChunks rest
  | chunk => encodeChunk chunk

/-- `utils::base64_encode` from `src/lib.rs`. -/
def base64_encode (input : List Nat) : String :=
  String.mk (encodeChunks input)

/-- `utils::to_base64` from `src/lib.rs`. -/
def to_base64 (data : List Nat) : String :=
  base64_encode data

/-- Modelled from the spec: the sextet value of an alphabet character under
a standard RFC 4648 Base64 decoder, i.e. its index in the alphabet. -/
def decodeChar (c : Char) : Nat :=
  CHARS.indexOf c

/-- Modelled from the spec: a standard RFC 4648 Base64 decoder over the
character list, reading 4-character groups; a group ending in two `=`
yields one byte, a group ending in one `=` yields two bytes, and a full
group yields three bytes. -/
def decodeChunks : List Char → List Nat
  | c1 :: c2 :: c3 :: c4 :: rest =>
    let d1 := decodeChar c1
    let d2 := decodeChar c2
    if c3 = '=' then [d1 * 4 + d2 / 16]
    else
      let d3 := decodeChar c3
      if c4 = '=' then [d1 * 4 + d2 / 16, d2 % 16 * 16 + d3 / 4]
      else
        (d1 * 4 + d2 / 16) :: (d2 % 16 * 16 + d3 / 4) ::
          (d3 % 4 * 64 + decodeChar c4) :: decodeChunks rest
  | _ => []

/-- Modelled from the spec: a standard RFC 4648 Base64 decoder on strings. -/
def base64_decode (s : String) : List Nat :=
  decodeChunks s.data

/-- Model of Rust's `str::to_lowercase`, restricted to the ASCII mapping
(character-wise lowercasing); the two agree on every extension whose
lowercasing is relevant to the ASCII-keyed MIME table. -/
def to_lowercase (s : String) : String :=
  String.mk (s.data.map Char.toLower)

/-- `utils::mime_type_from_extension` from `src/lib.rs`. -/
def mime_type_from_extension (ext : String) : String :=
  match to_lowercase ext with
  | "png" => "image/png"
  | "jpg" | "jpeg" => "image/jpeg"
  | "gif" => "image/gif"
  | "svg" => "image/svg+xml"
  | "ico" => "image/x-icon"
  | "txt" => "text/plain"
  | "html" => "text/html"
  | "css" => "text/css"
  | "js" => "application/javascript"
  | "json" => "application/json"
  | _ => "application/octet-stream"

/-- Modelled from the spec: the fixed extension-to-MIME association table
of §4.2, with the `jpg|jpeg` row split into its two keys. -/
def mimeTable : List (String × String) :=
  [("png", "image/png"), ("jpg", "image/jpeg"), ("jpeg", "image/jpeg"),
   ("gif", "image/gif"), ("svg", "image/svg+xml"), ("ico", "image/x-icon"),
   ("txt", "text/plain"), ("html", "text/html"), ("css", "text/css"),
   ("js", "application/javascript"), ("json", "application/json")]

/-- Modelled from the spec: case-insensitive table lookup, returning
`application/octet-stream` for any unmatched extension. -/
def mime_spec (ext : String) : String :=
  (mimeTable.lookup (to_lowercase ext)).getD "application/octet-stream"

/-- `utils::create_data_url` from `src/lib.rs`:
`format!("data:{};base64,{}", mime_type, to_base64(data))`. -/
def create_data_url (data : List Nat) (mime_type : String) : String :=
  "data:" ++ mime_type ++ ";base64," ++ to_base64 data

end utils

namespace art

/-- Rust's `str::split_inclusive('\n')` used by `str::lines`: the maximal
segments of the character list each ending with a newline, except possibly
the last; the empty string yields no segment. -/
def splitInclusiveNl : List Char → List (List Char)
  | [] => []
  | c :: cs =>
    match splitInclusiveNl cs with
    | [] => [[c]]
    | seg :: segs =>
      if c = '\n' then [c] :: seg :: segs else (c :: seg) :: segs

/-- Rust's `str::lines` strips the trailing `"\n"` of each inclusive
segment, and then a trailing `'\r'` if one is present. -/
def stripNewline (seg : List Char) : List Char :=
  if seg.getLast? = some '\n' then
    let seg0 := seg.dropLast
    if seg0.getLast? = some '\r' then seg0.dropLast else seg0
  else seg

/-- Model of Rust's `str::lines()` iterator, collected into a list. -/
def lines (text : String) : List String :=
  (splitInclusiveNl text.data).map fun seg => String.mk (stripNewline seg)

/-- `art::get_line_count` from `src/art/mod.rs`: `text.lines().count()`. -/
def get_line_count (text : String) : Nat :=
  (lines text).length

/-- Model of Rust's `str::chars()` iterator: the Unicode scalar values of
the string, in order. -/
def chars (text : String) : List Char :=
  text.data

/-- `art::get_char_count` from `src/art/mod.rs`: `text.chars().count()`. -/
def get_char_count (text : String) : Nat :=
  (chars text).length

end art

/-! ## Helper lemmas -/

theorem and_63_eq_mod (x : Nat) : x &&& 63 = x % 64 := by
  have h := Nat.and_pow_two_sub_one_eq_mod x 6
  norm_num at h
  exact h

theorem shiftLeft_lor_small (x y n : Nat) (h : y < 2 ^ n) :
    x <<< n ||| y = 2 ^ n * x + y := by
  rw [Nat.shiftLeft_eq, Nat.mul_comm]
  exact (Nat.mul_add_lt_is_or h x).symm

/-- The 24-bit word `b` assembled by the encoder loop, in arithmetic form. -/
theorem chunk_word_eq {b c : Nat} (a : Nat) (hb : b < 256) (hc : c < 256) :
    (a <<< 16) ||| (b <<< 8) ||| c = a * 65536 + b * 256 + c := by
  rw [Nat.or_assoc, shiftLeft_lor_small b c 8 (by omega)]
  rw [shiftLeft_lor_small a (2 ^ 8 * b + c) 16 (by norm_num; omega)]
  norm_num
  ring

/-- The four sextets extracted from the 24-bit word, in div/mod form. -/
theorem encode_extract {a b c : Nat} (ha : a < 256) (hb : b < 256)
    (hc : c < 256) :
    ((a * 65536 + b * 256 + c) >>> 18) &&& 63 = a / 4
    ∧ ((a * 65536 + b * 256 + c) >>> 12) &&& 63 = a % 4 * 16 + b / 16
    ∧ ((a * 65536 + b * 256 + c) >>> 6) &&& 63 = b % 16 * 4 + c / 64
    ∧ (a * 65536 + b * 256 + c) &&& 63 = c % 64 := by
  simp only [Nat.shiftRight_eq_div_pow, and_63_eq_mod]
  norm_num
  omega

/-- The decoder table inverts the encoder table on every sextet. -/
theorem decodeChar_CHARS : ∀ e < 64, utils.decodeChar (utils.CHARS.getD e 'A') = e := by
  decide

/-- No alphabet character is the padding character. -/
theorem CHARS_ne_pad : ∀ e < 64, utils.CHARS.getD e 'A' ≠ '=' := by
  decide

/-- Decoding a full 3-byte chunk followed by further output recovers the
three bytes and continues. -/
theorem decode_encodeChunk_full {a b c : Nat} (ha : a < 256) (hb : b < 256)
    (hc : c < 256) (rest : List Char) :
    utils.decodeChunks (utils.encodeChunk [a, b, c] ++ rest)
      = a :: b :: c :: utils.decodeChunks rest := by
  obtain ⟨h18, h12, h6, h0⟩ := encode_extract ha hb hc
  simp only [utils.encodeChunk, List.getD_cons_zero, List.getD_cons_succ,
    List.length_cons, List.length_nil, chunk_word_eq a hb hc, h18, h12, h6, h0,
    gt_iff_lt, Nat.lt_add_one_iff, List.cons_append, List.nil_append,
    if_pos (by omega : (1 : Nat) ≤ 2), if_pos (by omega : (2 : Nat) ≤ 2)]
  rw [utils.decodeChunks]
  rw [if_neg (CHARS_ne_pad _ (by omega)), if_neg (CHARS_ne_pad _ (by omega))]
  rw [decodeChar_CHARS _ (by omega), decodeChar_CHARS _ (by omega),
    decodeChar_CHARS _ (by omega), decodeChar_CHARS _ (by omega)]
  exact congrArg₂ _ (by omega)
    (congrArg₂ _ (by omega) (congrArg₂ _ (by omega) rfl))

/-- Decoding the encoding of a final 2-byte chunk recovers the two bytes. -/
theorem decode_encodeChunk_two {a b : Nat} (ha : a < 256) (hb : b < 256) :
    utils.decodeChunks (utils.encodeChunk [a, b]) = [a, b] := by
  obtain ⟨h18, h12, h6, h0⟩ := encode_extract ha hb (show 0 < 256 by omega)
  simp only [utils.encodeChunk, List.getD_cons_zero, List.getD_cons_succ,
    List.getD_nil, List.length_cons, List.length_nil,
    chunk_word_eq a hb (show 0 < 256 by omega), h18, h12, h6, h0,
    gt_iff_lt, Nat.lt_add_one_iff,
    if_pos (by omega : (1 : Nat) ≤ 1), if_neg (by omega : ¬ (2 : Nat) ≤ 1)]
  rw [utils.decodeChunks]
  rw [if_neg (CHARS_ne_pad _ (by omega)), if_pos rfl]
  rw [decodeChar_CHARS _ (by omega), decodeChar_CHARS _ (by omega),
    decodeChar_CHARS _ (by omega)]
  exact congrArg₂ _ (by omega) (congrArg₂ _ (by omega) rfl)

/-- Decoding the encoding of a final 1-byte chunk recovers the byte. -/
theorem decode_encodeChunk_one {a : Nat} (ha : a < 256) :
    utils.decodeChunks (utils.encodeChunk [a]) = [a] := by
  obtain ⟨h18, h12, h6, h0⟩ :=
    encode_extract ha (show 0 < 256 by omega) (show 0 < 256 by omega)
  simp only [utils.encodeChunk, List.getD_cons_zero, List.getD_cons_succ,
    List.getD_nil, List.length_cons, List.length_nil,
    chunk_word_eq a (show 0 < 256 by omega) (show 0 < 256 by omega),
    h18, h12, h6, h0, gt_iff_lt, Nat.lt_add_one_iff,
    if_neg (by omega : ¬ (1 : Nat) ≤ 0), if_neg (by omega : ¬ (2 : Nat) ≤ 0)]
  rw [utils.decodeChunks]
  rw [if_pos rfl]
  rw [decodeChar_CHARS _ (by omega), decodeChar_CHARS _ (by omega)]
  exact congrArg₂ _ (by omega) rfl

/-- The decoder inverts the encoder loop on every byte list. -/
theorem decode_encodeChunks :
    ∀ (l : List Nat), (∀ x ∈ l, x < 256) →
      utils.decodeChunks (utils.encodeChunks l) = l
  | [], _ => rfl
  | [a], h => by
      have ha : a < 256 := h a (by simp)
      show utils.decodeChunks (utils.encodeChunk [a]) = [a]
      exact decode_encodeChunk_one ha
  | [a, b], h => by
      have ha : a < 256 := h a (by simp)
      have hb : b < 256 := h b (by simp)
      show utils.decodeChunks (utils.encodeChunk [a, b]) = [a, b]
      exact decode_encodeChunk_two ha hb
  | a :: b :: c :: rest, h => by
      have ih := decode_encodeChunks rest fun x hx => h x (by simp [hx])
      show utils.decodeChunks
        (utils.encodeChunk [a, b, c] ++ utils.encodeChunks rest) = _
      rw [decode_encodeChunk_full (h a (by simp)) (h b (by simp))
        (h c (by simp)), ih]

/-- The encoder loop emits exactly 4 characters per 3-byte chunk, the last
chunk included. -/
theorem encodeChunks_length :
    ∀ (l : List Nat),
      (utils.encodeChunks l).length = 4 * ((l.length + 2) / 3)
  | [] => rfl
  | [a] => by
      have h4 : (utils.encodeChunk [a]).length = 4 := rfl
      show (utils.encodeChunk [a]).length = 4 * (([a].length + 2) / 3)
      rw [h4]
      simp only [List.length_cons, List.length_nil]
  | [a, b] => by
      have h4 : (utils.encodeChunk [a, b]).length = 4 := rfl
      show (utils.encodeChunk [a, b]).length = 4 * (([a, b].length + 2) / 3)
      rw [h4]
      simp only [List.length_cons, List.length_nil]
  | a :: b :: c :: rest => by
      have ih := encodeChunks_length rest
      show (utils.encodeChunk [a, b, c] ++ utils.encodeChunks rest).length = _
      rw [List.length_append, ih]
      simp only [List.length_cons]
      have h4 : (utils.encodeChunk [a, b, c]).length = 4 := rfl
      rw [h4]
      omega

/-- An inclusive split of a nonempty list is nonempty. -/
theorem splitInclusiveNl_ne_nil (c : Char) (cs : List Char) :
    art.splitInclusiveNl (c :: cs) ≠ [] := by
  simp only [art.splitInclusiveNl]
  cases art.splitInclusiveNl cs with
  | nil => simp
  | cons seg segs => by_cases hc : c = '\n' <;> simp [hc]

/-- Closed form for the number of inclusive-newline segments: one per
newline, plus one for a trailing segment not ending in a newline. -/
theorem splitInclusiveNl_length :
    ∀ (l : List Char),
      (art.splitInclusiveNl l).length
        = l.count '\n' + (if l ≠ [] ∧ l.getLast? ≠ some '\n' then 1 else 0)
  | [] => by simp [art.splitInclusiveNl]
  | c :: cs => by
      have ih := splitInclusiveNl_length cs
      simp only [art.splitInclusiveNl]
      cases hss : art.splitInclusiveNl cs with
      | nil =>
          have hcs : cs = [] := by
            cases cs with
            | nil => rfl
            | cons d ds => exact absurd hss (splitInclusiveNl_ne_nil d ds)
          subst hcs
          by_cases hc : c = '\n' <;>
            simp [hc, List.count_cons]
      | cons seg segs =>
          have hne : cs ≠ [] := by
            intro he
            rw [he] at hss
            simp [art.splitInclusiveNl] at hss
          obtain ⟨d, ds, rfl⟩ := List.exists_cons_of_ne_nil hne
          rw [hss] at ih
          simp only [List.length_cons] at ih
          by_cases hc : c = '\n' <;>
            by_cases hlast : (d :: ds).getLast? = some '\n' <;>
              simp [hc, hlast, List.count_cons, List.getLast?_cons_cons, ih]

/-! ## Claim theorems -/

/-- C1: for every binary asset successfully declared, directly, through
`create_asset_registry`, or in the hand-written `images` module, the
generated `_INFO` record's `size` field equals the byte length of the bound
content. -/
theorem binary_asset_size_eq_content_length
    (name : String) (content : List Nat) (format descr : String)
    (bins : List BinarySpec) (texts : List TextSpec) :
    (include_binary_asset name content format descr).2.size
      = (include_binary_asset name content format descr).1.length
    ∧ (∀ p ∈ (create_asset_registry bins texts).binaries,
        p.2.size = p.1.length)
    ∧ images.ICON_PNG_INFO.size = images.ICON_PNG.length
    ∧ images.LOGO_SVG_INFO.size = images.LOGO_SVG.length := by
  refine ⟨rfl, ?_, rfl, rfl⟩
  intro p hp
  simp only [create_asset_registry, List.mem_map] at hp
  obtain ⟨s, -, rfl⟩ := hp
  rfl

/-- C1 witness: instantiation at a concrete one-asset registry. -/
theorem binary_asset_size_eq_content_length_witness :
    (include_binary_asset "B" [5, 6] "PNG" "d").2.size
      = (include_binary_asset "B" [5, 6] "PNG" "d").1.length :=
  (binary_asset_size_eq_content_length "A" [1] "PNG" "d"
      [⟨"B", [5, 6], "PNG", "d"⟩] []).2.1
    (include_binary_asset "B" [5, 6] "PNG" "d")
    (by simp [create_asset_registry])

/-- C2: a registry built from `b` binary and `t` text specs lists exactly
`b` binary and `t` text metadata records, in declaration order, each
carrying the name declared in its spec. -/
theorem registry_listing_names
    (bins : List BinarySpec) (texts : List TextSpec) :
    ((create_asset_registry bins texts).list_binary_assets).length
        = bins.length
    ∧ ((create_asset_registry bins texts).list_text_assets).length
        = texts.length
    ∧ ((create_asset_registry bins texts).list_binary_assets).map AssetInfo.name
        = bins.map BinarySpec.name
    ∧ ((create_asset_registry bins texts).list_text_assets).map TextAssetInfo.name
        = texts.map TextSpec.name := by
  refine ⟨by simp [create_asset_registry, Registry.list_binary_assets],
          by simp [create_asset_registry, Registry.list_text_assets], ?_, ?_⟩
  · simp [create_asset_registry, Registry.list_binary_assets,
      include_binary_asset, List.map_map, Function.comp_def]
  · simp [create_asset_registry, Registry.list_text_assets,
      include_text_asset, List.map_map, Function.comp_def]

/-- C6: `create_data_url` returns exactly
`"data:" ++ mime_type ++ ";base64," ++ to_base64 data`; in particular on
the bytes of `"test"` with MIME type `"text/plain"` it returns
`"data:text/plain;base64,dGVzdA=="`. -/
theorem create_data_url_format :
    (∀ (data : List Nat) (mime_type : String),
      utils.create_data_url data mime_type
        = "data:" ++ mime_type ++ ";base64," ++ utils.to_base64 data)
    ∧ utils.create_data_url [116, 101, 115, 116] "text/plain"
        = "data:text/plain;base64,dGVzdA==" :=
  ⟨fun _ _ => rfl, by decide⟩

/-- C7: `get_char_count` counts Unicode scalar values, not bytes: it equals
the number of characters of the string, and on the one-character string
`"€"` (3 bytes in UTF-8) it returns 1, not 3. -/
theorem char_count_scalar_values :
    (∀ (text : String), art.get_char_count text = text.data.length)
    ∧ art.get_char_count (String.mk ['€']) = 1
    ∧ (String.mk ['€']).utf8ByteSize = 3
    ∧ art.get_char_count (String.mk ['€']) ≠ (String.mk ['€']).utf8ByteSize :=
  ⟨fun _ => rfl, rfl, by decide, by decide⟩

/-- C10: `get_line_count` of the empty string is 0. -/
theorem line_count_empty :
    art.get_line_count "" = 0 :=
  rfl

/-- C3: `to_base64` is standard RFC 4648 Base64: a standard Base64 decoder
applied to the output reproduces the input bytes exactly, for every byte
list; and the bytes of `"Hello"` encode to `"SGVsbG8="`. -/
theorem base64_rfc4648_roundtrip :
    (∀ (data : List Nat), (∀ x ∈ data, x < 256) →
      utils.base64_decode (utils.to_base64 data) = data)
    ∧ utils.to_base64 [72, 101, 108, 108, 111] = "SGVsbG8=" := by
  refine ⟨?_, by decide⟩
  intro data h
  exact decode_encodeChunks data h

/-- C3 witness: the round trip evaluated on the bytes of `"Hello"`. -/
theorem base64_rfc4648_roundtrip_witness :
    utils.base64_decode (utils.to_base64 [72, 101, 108, 108, 111])
      = [72, 101, 108, 108, 111] :=
  base64_rfc4648_roundtrip.1 [72, 101, 108, 108, 111] (by decide)

/-- C9: the Base64 output length is exactly `4 * ceil(n / 3)` for an input
of `n` bytes. -/
theorem base64_output_length (data : List Nat) :
    (utils.to_base64 data).length = 4 * ((data.length + 2) / 3) :=
  encodeChunks_length data

/-- C8: `get_line_count` counts line-separated segments, a trailing
terminator producing no extra empty segment: it equals the number of
newlines plus one when nonempty text does not end in a newline; in
particular `"a\n"` has 1 line and `"a\nb"` has 2. -/
theorem line_count_segments :
    (∀ (text : String),
      art.get_line_count text
        = text.data.count '\n'
          + (if text.data ≠ [] ∧ text.data.getLast? ≠ some '\n' then 1 else 0))
    ∧ art.get_line_count (String.mk ['a', '\n']) = 1
    ∧ art.get_line_count (String.mk ['a', '\n', 'b']) = 2 := by
  refine ⟨?_, by decide, by decide⟩
  intro text
  have h := splitInclusiveNl_length text.data
  simpa [art.get_line_count, art.lines] using h

/-- C4: `mime_type_from_extension` lowercases its argument and looks it up
in the fixed extension table, defaulting to `application/octet-stream`;
`"PNG"` and `"png"` both map to `image/png` and `"xyz"` to the default. -/
theorem mime_type_table_lookup :
    (∀ (ext : String),
      utils.mime_type_from_extension ext = utils.mime_spec ext)
    ∧ utils.mime_type_from_extension "PNG" = "image/png"
    ∧ utils.mime_type_from_extension "png" = "image/png"
    ∧ utils.mime_type_from_extension "xyz" = "application/octet-stream" := by
  refine ⟨?_, by decide, by decide, by decide⟩
  intro ext
  unfold utils.mime_type_from_extension utils.mime_spec
  generalize utils.to_lowercase ext = s
  split
  all_goals try decide
  rename_i x h1 h2 h3 h4 h5 h6 h7 h8 h9 h10 h11
  have e1 : (s == "png") = false := beq_eq_false_iff_ne.mpr h1
  have e2 : (s == "jpg") = false := beq_eq_false_iff_ne.mpr h2
  have e3 : (s == "jpeg") = false := beq_eq_false_iff_ne.mpr h3
  have e4 : (s == "gif") = false := beq_eq_false_iff_ne.mpr h4
  have e5 : (s == "svg") = false := beq_eq_false_iff_ne.mpr h5
  have e6 : (s == "ico") = false := beq_eq_false_iff_ne.mpr h6
  have e7 : (s == "txt") = false := beq_eq_false_iff_ne.mpr h7
  have e8 : (s == "html") = false := beq_eq_false_iff_ne.mpr h8
  have e9 : (s == "css") = false := beq_eq_false_iff_ne.mpr h9
  have e10 : (s == "js") = false := beq_eq_false_iff_ne.mpr h10
  have e11 : (s == "json") = false := beq_eq_false_iff_ne.mpr h11
  simp [utils.mimeTable, List.lookup, e1, e2, e3, e4, e5, e6, e7, e8, e9,
    e10, e11]

end Boykisser
